import Mathlib

/-!
Verification of the colour-science repository specification.

Part 1 models the metadata annotation engine (field parser, attacher,
registry filter).  The module `colour/metadata/common.py` itself is not
part of the provided sources (only its unit tests are), so these
definitions are modelled from the specification text (sections 3, 4.2,
4.3, 4.4, 7 and 9 of the spec).

Part 2 embeds the colour-model transformation functions of
`colour/models/cie_lab.py`, `colour/models/cie_luv.py` and
`colour/models/ucs_luo2006.py` over the real numbers, with the external
collaborators (`cartesian_to_polar`, `polar_to_cartesian`, `CIE_E`,
`CIE_K`, `xy_to_xyY`, `xyY_to_XYZ`, `CaseInsensitiveMapping`) modelled
from the interface contracts the spec states for them.
-/

namespace ColourSpec

/-- Modelled from the spec: the restricted literal values handled by the
metadata field parser of `colour.metadata.common` (missing from the
sources).  Section 9 of the spec fixes the literal subset: numbers,
quoted strings with escapes, tuples, and flat dictionaries with string
keys (the dictionary layer is represented by `List (String × Lit)`). -/
inductive Lit where
  | num (n : Int)
  | str (s : String)
  | tup (xs : List Lit)

/-- The apostrophe character, i.e. the single-quote string delimiter. -/
def quoteChar : Char := Char.ofNat 39

/-- The double-quote string delimiter. -/
def dquoteChar : Char := Char.ofNat 34

/-- The backslash escape character. -/
def backslashChar : Char := Char.ofNat 92

/-- The closing brace terminating a dictionary literal. -/
def closeBraceChar : Char := Char.ofNat 125

/-- Whitespace recognised between literal tokens (space, newline, tab,
carriage return), so that a literal may span several physical lines. -/
def isWsChar (c : Char) : Bool :=
  c == ' ' || c == Char.ofNat 10 || c == Char.ofNat 9 || c == Char.ofNat 13

/-- Drops leading whitespace. -/
def skipWs (cs : List Char) : List Char :=
  cs.dropWhile isWsChar

/-- Modelled from the spec: Python-style unescaping inside a quoted
string literal.  A backslash before a quote or a backslash yields that
character; an unrecognised escape keeps both the backslash and the
following character (so an embedded backslash before a symbol name is
preserved, as the spec's literal scenario requires). -/
def escChars (e : Char) : List Char :=
  if e == quoteChar || e == dquoteChar || e == backslashChar then [e]
  else [backslashChar, e]

/-- Modelled from the spec: parses the tail of a quoted string literal
(the opening quote `q` already consumed), handling backslash escapes,
and returns the string together with the unconsumed input. -/
def parseStringAux : List Char → Char → List Char → Option (String × List Char)
  | [], _, _ => none
  | [c], q, acc => if c == q then some (⟨acc.reverse⟩, []) else none
  | c :: e :: rest, q, acc =>
    if c == q then some (⟨acc.reverse⟩, e :: rest)
    else if c == backslashChar then parseStringAux rest q ((escChars e).reverse ++ acc)
    else parseStringAux (e :: rest) q (c :: acc)

/-- Numeric value of a decimal digit character. -/
def digitVal (c : Char) : Int := Int.ofNat (c.toNat - 48)

/-- Modelled from the spec: parses a non-empty run of decimal digits as
an integer literal. -/
def parseIntAux (cs : List Char) : Option (Int × List Char) :=
  let ds := cs.takeWhile Char.isDigit
  if ds.isEmpty then none
  else some (ds.foldl (fun acc c => acc * 10 + digitVal c) 0, cs.dropWhile Char.isDigit)

mutual

/-- Modelled from the spec: the recursive-descent parser for one literal
value of the restricted grammar used by `colour.metadata.common`
(missing from the sources): a quoted string, a (possibly negative)
number, or a parenthesised tuple of literals.  The `Nat` argument is
recursion fuel bounding the nesting depth. -/
def parseLit : Nat → List Char → Option (Lit × List Char)
  | 0, _ => none
  | Nat.succ fuel, cs =>
    match skipWs cs with
    | [] => none
    | c :: rest =>
      if c == quoteChar || c == dquoteChar then
        match parseStringAux rest c [] with
        | none => none
        | some (s, rest1) => some (Lit.str s, rest1)
      else if c == '-' then
        match parseIntAux rest with
        | none => none
        | some (n, rest1) => some (Lit.num (-n), rest1)
      else if c.isDigit then
        match parseIntAux (c :: rest) with
        | none => none
        | some (n, rest1) => some (Lit.num n, rest1)
      else if c == '(' then
        match parseLitList fuel rest with
        | none => none
        | some (xs, rest1) => some (Lit.tup xs, rest1)
      else none

/-- Modelled from the spec: comma-separated literals up to the closing
parenthesis of a tuple (a trailing comma before `)` is tolerated). -/
def parseLitList : Nat → List Char → Option (List Lit × List Char)
  | 0, _ => none
  | Nat.succ fuel, cs =>
    match parseLit fuel cs with
    | none => none
    | some (x, rest) =>
      match skipWs rest with
      | [] => none
      | c :: rest1 =>
        if c == ')' then some ([x], rest1)
        else if c == ',' then
          match skipWs rest1 with
          | ')' :: rest2 => some ([x], rest2)
          | rest2 =>
            match parseLitList fuel rest2 with
            | none => none
            | some (xs, rest3) => some (x :: xs, rest3)
        else none

end

/-- Modelled from the spec: the entries of the flat dictionary literal,
the opening brace already consumed: quoted string keys, a colon, a
literal value, separated by commas and ended by the closing brace. -/
def parseEntries : Nat → List Char → Option (List (String × Lit))
  | 0, _ => none
  | Nat.succ fuel, cs =>
    match skipWs cs with
    | [] => none
    | c :: rest =>
      if c == closeBraceChar then some []
      else if c == quoteChar || c == dquoteChar then
        match parseStringAux rest c [] with
        | none => none
        | some (key, rest1) =>
          match skipWs rest1 with
          | ':' :: rest2 =>
            match parseLit (rest2.length + 1) rest2 with
            | none => none
            | some (v, rest3) =>
              match skipWs rest3 with
              | [] => none
              | d :: rest4 =>
                if d == closeBraceChar then some [(key, v)]
                else if d == ',' then
                  match parseEntries fuel rest4 with
                  | none => none
                  | some kvs => some ((key, v) :: kvs)
                else none
          | _ => none
      else none

/-- The pattern whose first occurrence marks an embedded annotation:
the text `metadata : ` followed by the opening brace of the dictionary
literal. -/
def metaPrefix : List Char := "metadata : \x7b".toList

/-- Modelled from the spec: searches the documentation body for the
first occurrence of the `metadata : ` + opening-brace pattern and
returns the input remaining after the opening brace. -/
def findMeta : List Char → Option (List Char)
  | [] => none
  | c :: rest =>
    if metaPrefix.isPrefixOf (c :: rest) then some ((c :: rest).drop metaPrefix.length)
    else findMeta rest

/-- Modelled from the spec: locates the annotation pattern in a
documentation body and parses the embedded flat dictionary literal;
`none` when no annotation is present or the literal is malformed. -/
def parseMetadataDict (body : String) : Option (List (String × Lit)) :=
  match findMeta body.toList with
  | none => none
  | some rest => parseEntries (rest.length + 1) rest

/-- Modelled from the spec: one annotation record for a single parameter
or return value (`ParameterMetadata` in `colour.metadata.common`,
missing from the sources), holding the three fields in the fixed order
type, symbol, extent. -/
structure ParameterMetadata where
  type : String
  symbol : String
  extent : Lit

/-- Modelled from the spec: one annotation record describing the
originating method (`NotesMetadata` in `colour.metadata.common`,
missing from the sources). -/
structure NotesMetadata where
  method_name : String
  method_strict_name : String

/-- Modelled from the spec: the composite metadata attached to one
function (`FunctionMetadata` in `colour.metadata.common`, missing from
the sources): ordered sequences of parameter, return and notes
records. -/
structure FunctionMetadata where
  parameters : List ParameterMetadata
  returns : List ParameterMetadata
  notes : List NotesMetadata

/-- Modelled from the spec: `parse_parameters_field_metadata` of
`colour.metadata.common` (missing from the sources).  The field is a
pair of name-and-type-line tokens and a free-text body; the body is
searched for a `metadata : ` dictionary annotation with exactly the
keys `type`, `symbol` and `extent`; success returns the record with the
three values in that fixed order, failure returns nothing. -/
def parse_parameters_field_metadata (field : List String × String) :
    Option ParameterMetadata :=
  match parseMetadataDict field.2 with
  | none => none
  | some kvs =>
    if kvs.length = 3 then
      match kvs.lookup "type", kvs.lookup "symbol", kvs.lookup "extent" with
      | some (Lit.str t), some (Lit.str s), some e => some ⟨t, s, e⟩
      | _, _, _ => none
    else none

/-- Modelled from the spec: `parse_returns_field_metadata` of
`colour.metadata.common` (missing from the sources); the contract for
return-value fields is the same as for parameter fields. -/
def parse_returns_field_metadata (field : List String × String) :
    Option ParameterMetadata :=
  parse_parameters_field_metadata field

/-- Modelled from the spec: `parse_notes_field_metadata` of
`colour.metadata.common` (missing from the sources).  The notes section
body is an ordered sequence of text fragments which are concatenated
before matching, so a dictionary literal split across the fragment
boundary is still recognised; the annotation must carry exactly the
keys `method_name` and `method_strict_name`. -/
def parse_notes_field_metadata (field : List String) : Option NotesMetadata :=
  match parseMetadataDict (String.intercalate " " field) with
  | none => none
  | some kvs =>
    if kvs.length = 2 then
      match kvs.lookup "method_name", kvs.lookup "method_strict_name" with
      | some (Lit.str n), some (Lit.str s) => some ⟨n, s⟩
      | _, _ => none
    else none

/-- Modelled from the spec: a function's documentation as already
segmented by the surrounding documentation framework — per-parameter
field blocks, per-return-value field blocks, and notes field blocks. -/
structure Docstring where
  parameters : List (List String × String)
  returns : List (List String × String)
  notes : List (List String)

/-- Modelled from the spec: a Python function object as the metadata
attacher sees it — an optional docstring and the mutable
`__metadata__` attribute slot. -/
structure PyFunction where
  doc : Option Docstring
  metadata : Option FunctionMetadata

/-- Modelled from the spec: the value the attacher computes from a
function's documentation — every field block is run through the field
parser and the successful parses are collected, in order, into the
three sequences; absent documentation yields three empty sequences. -/
def compute_metadata : Option Docstring → FunctionMetadata
  | none => ⟨[], [], []⟩
  | some d =>
    ⟨d.parameters.filterMap parse_parameters_field_metadata,
     d.returns.filterMap parse_returns_field_metadata,
     d.notes.filterMap parse_notes_field_metadata⟩

/-- Modelled from the spec: `set_metadata` of `colour.metadata.common`
(missing from the sources): binds the freshly computed
`FunctionMetadata` onto the function object's attribute slot. -/
def set_metadata (f : PyFunction) : PyFunction :=
  { f with metadata := some (compute_metadata f.doc) }

/-- Attribute names valid on parameter and return records. -/
def PARAMETER_ATTRIBUTES : List String := ["type", "symbol", "extent"]

/-- Attribute names valid on notes records. -/
def NOTES_ATTRIBUTES : List String := ["method_name", "method_strict_name"]

/-- The fixed recognised category names. -/
def VALID_CATEGORIES : List String := ["parameters", "returns", "notes"]

/-- Modelled from the spec: the attribute names valid for a category's
record type — `type`/`symbol`/`extent` for parameters and returns,
`method_name`/`method_strict_name` for notes. -/
def validAttributes (c : String) : List String :=
  if c = "parameters" ∨ c = "returns" then PARAMETER_ATTRIBUTES
  else if c = "notes" then NOTES_ATTRIBUTES
  else []

/-- Modelled from the spec: the value of a named attribute of a
parameter/return record. -/
def parameterAttribute (p : ParameterMetadata) (a : String) : Option Lit :=
  if a = "type" then some (Lit.str p.type)
  else if a = "symbol" then some (Lit.str p.symbol)
  else if a = "extent" then some p.extent
  else none

/-- Modelled from the spec: the value of a named attribute of a notes
record. -/
def notesAttribute (n : NotesMetadata) (a : String) : Option Lit :=
  if a = "method_name" then some (Lit.str n.method_name)
  else if a = "method_strict_name" then some (Lit.str n.method_strict_name)
  else none

/-- Exact match of an attribute value against the string filter value
(non-string values never match a string filter). -/
def attributeEqualsString (l : Option Lit) (v : String) : Bool :=
  match l with
  | some (Lit.str s) => s == v
  | _ => false

/-- Modelled from the spec: the `any_parameter` rule — when false only
the record at position 0 of the stored sequence is eligible, when true
every record is. -/
def recordsMatch (recs : List ParameterMetadata) (v a : String)
    (any_parameter : Bool) : Bool :=
  (if any_parameter then recs else recs.take 1).any
    (fun p => attributeEqualsString (parameterAttribute p a) v)

/-- Modelled from the spec: whether one function's metadata matches the
filter for one (category, attribute) pair. -/
def functionMatches (m : FunctionMetadata) (v c a : String)
    (any_parameter : Bool) : Bool :=
  if c = "parameters" then recordsMatch m.parameters v a any_parameter
  else if c = "returns" then recordsMatch m.returns v a any_parameter
  else if c = "notes" then
    m.notes.any (fun n => attributeEqualsString (notesAttribute n a) v)
  else false

/-- Modelled from the spec: `filter_metadata_registry` of
`colour.metadata.common` (missing from the sources).  The registry is
passed explicitly as a mapping from function identifiers to their
metadata (spec section 9 sanctions the explicit side-table).  An
unrecognised category name, or an attribute name invalid for a selected
category, fails fast with a configuration error; otherwise a function
is included when at least one (category, attribute) pair of the
requested cross-product matches on an eligible record. -/
def filter_metadata_registry (v : String) (categories attributes : List String)
    (any_parameter : Bool) (registry : List (Nat × FunctionMetadata)) :
    Except String (List Nat) :=
  if ∃ c ∈ categories, c ∉ VALID_CATEGORIES then
    Except.error "invalid category"
  else if ∃ c ∈ categories, ∃ a ∈ attributes, a ∉ validAttributes c then
    Except.error "invalid attribute"
  else
    Except.ok
      ((registry.filter
        (fun e => categories.any
          (fun c => attributes.any
            (fun a => functionMatches e.2 v c a any_parameter)))).map Prod.fst)

/-- The literal field of the spec's parsing scenario: name-and-type-line
tokens and a body embedding the annotation dictionary, with an escaped
backslash inside the symbol string. -/
def lightnessField : List String × String :=
  (["Lstar", "numeric or array_like"],
   "metadata : \x7b\x27type\x27: \x27Lightness\x27, \x27symbol\x27: \x27L^\\star\x27, \x27extent\x27: 100\x7d *Lightness* :math:\x60L^\\star\x60")

/-- A one-entry registry whose function's first parameter record has
type `Luminance`, used to witness C1. -/
def luminanceRegistry : List (Nat × FunctionMetadata) :=
  [(0, ⟨[⟨"Luminance", "Y", Lit.num 100⟩], [], []⟩)]

noncomputable section

/-- Modelled from the spec: the CIE threshold constant `CIE_E` of
`colour.constants` (missing from the sources), the exact rational whose
value ≈ 0.008856; with `CIE_K` it makes the piecewise branches meet
continuously, as spec section 8 requires. -/
def CIE_E : ℝ := 216 / 24389

/-- Modelled from the spec: the CIE slope constant `CIE_K` of
`colour.constants` (missing from the sources), the exact rational whose
value ≈ 903.3. -/
def CIE_K : ℝ := 24389 / 27

/-- Modelled from the spec: `cartesian_to_polar` of `colour.algebra`
(an external geometry helper): maps a pair to (radius, angle in
radians), the angle measured like `arctan2` in (-π, π]. -/
def cartesian_to_polar (p : ℝ × ℝ) : ℝ × ℝ :=
  (Complex.abs ⟨p.1, p.2⟩, Complex.arg ⟨p.1, p.2⟩)

/-- Modelled from the spec: `polar_to_cartesian` of `colour.algebra`
(an external geometry helper): maps (radius, angle in radians) back to
a cartesian pair. -/
def polar_to_cartesian (p : ℝ × ℝ) : ℝ × ℝ :=
  (p.1 * Real.cos p.2, p.1 * Real.sin p.2)

/-- Radians-to-degrees conversion (`np.degrees`). -/
def degrees (x : ℝ) : ℝ := x * (180 / Real.pi)

/-- Degrees-to-radians conversion (`np.radians`). -/
def radians (x : ℝ) : ℝ := x * (Real.pi / 180)

/-- The real modulo operation of numpy's `%` operator: for a positive
modulus the result lies in [0, modulus). -/
def fmod (x y : ℝ) : ℝ := x - y * (⌊x / y⌋ : ℝ)

/-- Modelled from the spec: `xy_to_xyY` of `colour.models` (missing
from the sources): lifts xy chromaticity coordinates to a CIE xyY
colourspace array with unit luminance. -/
def xy_to_xyY (xy : ℝ × ℝ) : ℝ × ℝ × ℝ := (xy.1, xy.2, 1)

/-- Modelled from the spec: `xyY_to_XYZ` of `colour.models` (missing
from the sources): the standard projective map from CIE xyY to CIE XYZ
tristimulus values. -/
def xyY_to_XYZ (xyY : ℝ × ℝ × ℝ) : ℝ × ℝ × ℝ :=
  (xyY.1 * xyY.2.2 / xyY.2.1, xyY.2.2, (1 - xyY.1 - xyY.2.1) * xyY.2.2 / xyY.2.1)

/-- The element-wise piecewise function applied by `XYZ_to_Lab`
(cie_lab.py lines 89-91): cube root above the `CIE_E` threshold, the
linear ramp below it. -/
def lab_f (t : ℝ) : ℝ :=
  if t > CIE_E then t ^ ((1 : ℝ) / 3) else (CIE_K * t + 16) / 116

/-- `XYZ_to_Lab` of cie_lab.py: normalise by the reference white
derived from the illuminant chromaticity, apply the piecewise function
per channel, and combine into L, a, b. -/
def XYZ_to_Lab (XYZ : ℝ × ℝ × ℝ) (illuminant : ℝ × ℝ) : ℝ × ℝ × ℝ :=
  let XYZ_r := xyY_to_XYZ (xy_to_xyY illuminant)
  let X_f := lab_f (XYZ.1 / XYZ_r.1)
  let Y_f := lab_f (XYZ.2.1 / XYZ_r.2.1)
  let Z_f := lab_f (XYZ.2.2 / XYZ_r.2.2)
  (116 * Y_f - 16, 500 * (X_f - Y_f), 200 * (Y_f - Z_f))

/-- `Lab_to_XYZ` of cie_lab.py: reconstruct the per-channel piecewise
values and invert each branch, the `y` channel gated on
`L > CIE_K * CIE_E`. -/
def Lab_to_XYZ (Lab : ℝ × ℝ × ℝ) (illuminant : ℝ × ℝ) : ℝ × ℝ × ℝ :=
  let L := Lab.1
  let a := Lab.2.1
  let b := Lab.2.2
  let XYZ_r := xyY_to_XYZ (xy_to_xyY illuminant)
  let f_y := (L + 16) / 116
  let f_x := a / 500 + f_y
  let f_z := f_y - b / 200
  let x_r := if f_x ^ 3 > CIE_E then f_x ^ 3 else (116 * f_x - 16) / CIE_K
  let y_r := if L > CIE_K * CIE_E then ((L + 16) / 116) ^ 3 else L / CIE_K
  let z_r := if f_z ^ 3 > CIE_E then f_z ^ 3 else (116 * f_z - 16) / CIE_K
  (x_r * XYZ_r.1, y_r * XYZ_r.2.1, z_r * XYZ_r.2.2)

/-- `Lab_to_LCHab` of cie_lab.py: polar form of (a, b) with the hue in
degrees reduced modulo 360. -/
def Lab_to_LCHab (Lab : ℝ × ℝ × ℝ) : ℝ × ℝ × ℝ :=
  let CH := cartesian_to_polar (Lab.2.1, Lab.2.2)
  (Lab.1, CH.1, fmod (degrees CH.2) 360)

/-- `LCHab_to_Lab` of cie_lab.py: rebuild (a, b) from chroma and the
hue converted from degrees to radians. -/
def LCHab_to_Lab (LCHab : ℝ × ℝ × ℝ) : ℝ × ℝ × ℝ :=
  let ab := polar_to_cartesian (LCHab.2.1, radians LCHab.2.2)
  (LCHab.1, ab.1, ab.2)

/-- `XYZ_to_Luv` of cie_luv.py: lightness from the piecewise rule on
Y/Y_r, then u, v from the projective combination of XYZ and the
reference white. -/
def XYZ_to_Luv (XYZ : ℝ × ℝ × ℝ) (illuminant : ℝ × ℝ) : ℝ × ℝ × ℝ :=
  let X := XYZ.1
  let Y := XYZ.2.1
  let Z := XYZ.2.2
  let XYZ_r := xyY_to_XYZ (xy_to_xyY illuminant)
  let X_r := XYZ_r.1
  let Y_r := XYZ_r.2.1
  let Z_r := XYZ_r.2.2
  let y_r := Y / Y_r
  let L := if y_r > CIE_E then 116 * y_r ^ ((1 : ℝ) / 3) - 16 else CIE_K * y_r
  let u := 13 * L * ((4 * X / (X + 15 * Y + 3 * Z)) -
    (4 * X_r / (X_r + 15 * Y_r + 3 * Z_r)))
  let v := 13 * L * ((9 * Y / (X + 15 * Y + 3 * Z)) -
    (9 * Y_r / (X_r + 15 * Y_r + 3 * Z_r)))
  (L, u, v)

/-- `Luv_to_XYZ` of cie_luv.py: Y from the inverse piecewise rule gated
on `L > CIE_E * CIE_K`, then X and Z by solving the linear system the
source writes with the intermediate a, b, c, d bindings. -/
def Luv_to_XYZ (Luv : ℝ × ℝ × ℝ) (illuminant : ℝ × ℝ) : ℝ × ℝ × ℝ :=
  let L := Luv.1
  let u := Luv.2.1
  let v := Luv.2.2
  let XYZ_r := xyY_to_XYZ (xy_to_xyY illuminant)
  let X_r := XYZ_r.1
  let Y_r := XYZ_r.2.1
  let Z_r := XYZ_r.2.2
  let Y := if L > CIE_E * CIE_K then ((L + 16) / 116) ^ 3 else L / CIE_K
  let a := 1 / 3 * ((52 * L / (u + 13 * L *
    (4 * X_r / (X_r + 15 * Y_r + 3 * Z_r)))) - 1)
  let b := -5 * Y
  let c := -(1 / 3 : ℝ)
  let d := Y * (39 * L / (v + 13 * L *
    (9 * Y_r / (X_r + 15 * Y_r + 3 * Z_r))) - 5)
  let X := (d - b) / (a - c)
  let Z := X * a + b
  (X, Y, Z)

/-- `Luv_to_LCHuv` of cie_luv.py: polar form of (u, v) with the hue in
degrees reduced modulo 360. -/
def Luv_to_LCHuv (Luv : ℝ × ℝ × ℝ) : ℝ × ℝ × ℝ :=
  let CH := cartesian_to_polar (Luv.2.1, Luv.2.2)
  (Luv.1, CH.1, fmod (degrees CH.2) 360)

/-- `LCHuv_to_Luv` of cie_luv.py: rebuild (u, v) from chroma and the
hue converted from degrees to radians. -/
def LCHuv_to_Luv (LCHuv : ℝ × ℝ × ℝ) : ℝ × ℝ × ℝ :=
  let uv := polar_to_cartesian (LCHuv.2.1, radians LCHuv.2.2)
  (LCHuv.1, uv.1, uv.2)

/-- The record of `Luo et al. (2006)` fitting coefficients of
ucs_luo2006.py. -/
structure Coefficients_UCS_Luo2006 where
  K_L : ℝ
  c_1 : ℝ
  c_2 : ℝ

/-- `JMh_CIECAM02_to_UCS_Luo2006` of ucs_luo2006.py. -/
def JMh_CIECAM02_to_UCS_Luo2006 (JMh : ℝ × ℝ × ℝ)
    (coefficients : Coefficients_UCS_Luo2006) : ℝ × ℝ × ℝ :=
  let J := JMh.1
  let M := JMh.2.1
  let h := JMh.2.2
  let J_p := ((1 + 100 * coefficients.c_1) * J) / (1 + coefficients.c_1 * J)
  let M_p := (1 / coefficients.c_2) * Real.log (1 + coefficients.c_2 * M)
  let ab := polar_to_cartesian (M_p, radians h)
  (J_p, ab.1, ab.2)

/-- `UCS_Luo2006_to_JMh_CIECAM02` of ucs_luo2006.py. -/
def UCS_Luo2006_to_JMh_CIECAM02 (Jpapbp : ℝ × ℝ × ℝ)
    (coefficients : Coefficients_UCS_Luo2006) : ℝ × ℝ × ℝ :=
  let J_p := Jpapbp.1
  let a_p := Jpapbp.2.1
  let b_p := Jpapbp.2.2
  let J := -J_p / (coefficients.c_1 * J_p - 1 - 100 * coefficients.c_1)
  let Mh := cartesian_to_polar (a_p, b_p)
  let M_p := Mh.1
  let h := Mh.2
  let M := (Real.exp (M_p / (1 / coefficients.c_2)) - 1) / coefficients.c_2
  (J, M, fmod (degrees h) 360)

end

/-- ASCII lower-casing of one character, as the case normalisation of
`CaseInsensitiveMapping` applies it to mapping keys. -/
def toLowerChar (c : Char) : Char :=
  if 65 ≤ c.toNat ∧ c.toNat ≤ 90 then Char.ofNat (c.toNat + 32) else c

/-- Modelled from the spec: the key normalisation of
`CaseInsensitiveMapping` of `colour.utilities` (missing from the
sources): keys are lower-cased on insert and lookup (spec section
9). -/
def toLowerString (s : String) : String :=
  ⟨s.data.map toLowerChar⟩

/-- The underlying association table of `COEFFICIENTS_UCS_LUO2006` of
ucs_luo2006.py, its three keys stored lower-cased as the
case-insensitive mapping normalises them. -/
noncomputable def COEFFICIENTS_UCS_LUO2006_data :
    List (String × Coefficients_UCS_Luo2006) :=
  [("cam02-lcd", ⟨0.77, 0.007, 0.0053⟩),
   ("cam02-scd", ⟨1.24, 0.007, 0.0363⟩),
   ("cam02-ucs", ⟨1.00, 0.007, 0.0228⟩)]

/-- `COEFFICIENTS_UCS_LUO2006` of ucs_luo2006.py: the
case-insensitive mapping from colourspace name to its fitting
coefficients, looked up with the key lower-cased. -/
noncomputable def COEFFICIENTS_UCS_LUO2006 (key : String) :
    Option Coefficients_UCS_Luo2006 :=
  COEFFICIENTS_UCS_LUO2006_data.lookup (toLowerString key)

noncomputable section

/-- `JMh_CIECAM02_to_CAM02LCD` of ucs_luo2006.py: the generic forward
transform bound to the CAM02-LCD coefficients. -/
def JMh_CIECAM02_to_CAM02LCD (JMh : ℝ × ℝ × ℝ) : ℝ × ℝ × ℝ :=
  JMh_CIECAM02_to_UCS_Luo2006 JMh
    ((COEFFICIENTS_UCS_LUO2006 "CAM02-LCD").getD ⟨0, 0, 0⟩)

/-- `CAM02LCD_to_JMh_CIECAM02` of ucs_luo2006.py: the generic inverse
transform bound to the CAM02-LCD coefficients. -/
def CAM02LCD_to_JMh_CIECAM02 (Jpapbp : ℝ × ℝ × ℝ) : ℝ × ℝ × ℝ :=
  UCS_Luo2006_to_JMh_CIECAM02 Jpapbp
    ((COEFFICIENTS_UCS_LUO2006 "CAM02-LCD").getD ⟨0, 0, 0⟩)

/-- `JMh_CIECAM02_to_CAM02SCD` of ucs_luo2006.py: the generic forward
transform bound to the CAM02-SCD coefficients. -/
def JMh_CIECAM02_to_CAM02SCD (JMh : ℝ × ℝ × ℝ) : ℝ × ℝ × ℝ :=
  JMh_CIECAM02_to_UCS_Luo2006 JMh
    ((COEFFICIENTS_UCS_LUO2006 "CAM02-SCD").getD ⟨0, 0, 0⟩)

/-- `CAM02SCD_to_JMh_CIECAM02` of ucs_luo2006.py: the generic inverse
transform bound to the CAM02-SCD coefficients. -/
def CAM02SCD_to_JMh_CIECAM02 (Jpapbp : ℝ × ℝ × ℝ) : ℝ × ℝ × ℝ :=
  UCS_Luo2006_to_JMh_CIECAM02 Jpapbp
    ((COEFFICIENTS_UCS_LUO2006 "CAM02-SCD").getD ⟨0, 0, 0⟩)

/-- `JMh_CIECAM02_to_CAM02UCS` of ucs_luo2006.py: the generic forward
transform bound to the CAM02-UCS coefficients. -/
def JMh_CIECAM02_to_CAM02UCS (JMh : ℝ × ℝ × ℝ) : ℝ × ℝ × ℝ :=
  JMh_CIECAM02_to_UCS_Luo2006 JMh
    ((COEFFICIENTS_UCS_LUO2006 "CAM02-UCS").getD ⟨0, 0, 0⟩)

/-- `CAM02UCS_to_JMh_CIECAM02` of ucs_luo2006.py: the generic inverse
transform bound to the CAM02-UCS coefficients. -/
def CAM02UCS_to_JMh_CIECAM02 (Jpapbp : ℝ × ℝ × ℝ) : ℝ × ℝ × ℝ :=
  UCS_Luo2006_to_JMh_CIECAM02 Jpapbp
    ((COEFFICIENTS_UCS_LUO2006 "CAM02-UCS").getD ⟨0, 0, 0⟩)

end

/-- C3: `parse_parameters_field_metadata` applied to the field
`(['Lstar', 'numeric or array_like'], "metadata : {'type': 'Lightness',
'symbol': 'L^\\star', 'extent': 100} *Lightness*")` returns exactly the
triple `('Lightness', 'L^\\star', 100)` in the fixed order (type,
symbol, extent), the escaped backslash in the symbol preserved. -/
theorem C3_parse_lightness_field :
    parse_parameters_field_metadata lightnessField =
      some ⟨"Lightness", "L^\\star", Lit.num 100⟩ := rfl

/-- C7: attaching metadata always succeeds and binds the freshly
computed `FunctionMetadata`; a function whose documentation is absent,
or whose fields all carry no annotation, receives the three empty
sequences; and re-invoking the attacher replaces the attribute with an
equivalent freshly computed value, so attachment is idempotent. -/
theorem C7_set_metadata_total_idempotent :
    ∀ f : PyFunction,
      (set_metadata f).metadata = some (compute_metadata f.doc) ∧
      (f.doc = none → (set_metadata f).metadata = some ⟨[], [], []⟩) ∧
      (∀ d, f.doc = some d →
        (∀ x ∈ d.parameters, parse_parameters_field_metadata x = none) →
        (∀ x ∈ d.returns, parse_returns_field_metadata x = none) →
        (∀ x ∈ d.notes, parse_notes_field_metadata x = none) →
        (set_metadata f).metadata = some ⟨[], [], []⟩) ∧
      set_metadata (set_metadata f) = set_metadata f := by
  intro f
  refine ⟨rfl, ?_, ?_, rfl⟩
  · intro h
    simp [set_metadata, h, compute_metadata]
  · intro d hd hp hr hn
    have h1 : d.parameters.filterMap parse_parameters_field_metadata = [] :=
      List.filterMap_eq_nil_iff.2 hp
    have h2 : d.returns.filterMap parse_returns_field_metadata = [] :=
      List.filterMap_eq_nil_iff.2 hr
    have h3 : d.notes.filterMap parse_notes_field_metadata = [] :=
      List.filterMap_eq_nil_iff.2 hn
    simp [set_metadata, hd, compute_metadata, h1, h2, h3]

/-- Closed witness for C7: a function without documentation still gets
a metadata record with three empty sequences, and a second attachment
leaves the function unchanged. -/
theorem C7_set_metadata_witness :
    (set_metadata ⟨none, none⟩).metadata = some ⟨[], [], []⟩ ∧
      set_metadata (set_metadata ⟨none, none⟩) = set_metadata ⟨none, none⟩ :=
  ⟨(C7_set_metadata_total_idempotent ⟨none, none⟩).2.1 rfl,
   (C7_set_metadata_total_idempotent ⟨none, none⟩).2.2.2⟩

/-- C4: a filter call whose categories contain a name outside the fixed
recognised set, or whose attributes contain a name invalid for a
selected category, signals an invalid-configuration error instead of
returning a result set. -/
theorem C4_invalid_configuration_errors :
    ∀ (v : String) (categories attributes : List String) (any_parameter : Bool)
      (registry : List (Nat × FunctionMetadata)),
      ((∃ c ∈ categories, c ∉ VALID_CATEGORIES) ∨
        (∃ c ∈ categories, ∃ a ∈ attributes, a ∉ validAttributes c)) →
      ∃ e, filter_metadata_registry v categories attributes any_parameter registry =
        Except.error e := by
  intro v categories attributes any_parameter registry h
  unfold filter_metadata_registry
  by_cases h1 : ∃ c ∈ categories, c ∉ VALID_CATEGORIES
  · rw [if_pos h1]
    exact ⟨_, rfl⟩
  · rw [if_neg h1, if_pos (h.resolve_left h1)]
    exact ⟨_, rfl⟩

/-- Closed witness for C4: requesting attribute `method_name` under
category `parameters` is a category/attribute mismatch and errors. -/
theorem C4_invalid_configuration_witness :
    (∃ c ∈ ["parameters"], ∃ a ∈ ["method_name"], a ∉ validAttributes c) ∧
      ∃ e, filter_metadata_registry "Luminance" ["parameters"] ["method_name"]
        false [] = Except.error e :=
  ⟨by decide,
   C4_invalid_configuration_errors "Luminance" ["parameters"] ["method_name"]
     false [] (Or.inr (by decide))⟩

/-- In a registry whose keys are distinct, one key determines its
metadata. -/
theorem registry_key_unique :
    ∀ (reg : List (Nat × FunctionMetadata)), (reg.map Prod.fst).Nodup →
      ∀ {fn : Nat} {m m' : FunctionMetadata},
        (fn, m) ∈ reg → (fn, m') ∈ reg → m = m' := by
  intro reg
  induction reg with
  | nil => intro _ fn m m' h; cases h
  | cons hd tl ih =>
    intro hnd fn m m' h1 h2
    rw [List.map_cons, List.nodup_cons] at hnd
    rcases List.mem_cons.1 h1 with e1 | m1
    · rcases List.mem_cons.1 h2 with e2 | m2
      · exact congrArg Prod.snd (e1.trans e2.symm)
      · subst e1
        exact (hnd.1 (show fn ∈ tl.map Prod.fst from
          List.mem_map_of_mem Prod.fst m2)).elim
    · rcases List.mem_cons.1 h2 with e2 | m2
      · subst e2
        exact (hnd.1 (show fn ∈ tl.map Prod.fst from
          List.mem_map_of_mem Prod.fst m1)).elim
      · exact ih hnd.2 m1 m2

/-- Membership of a key in the filtered, key-projected registry is
equivalent to its own metadata passing the predicate, provided the
registry keys are distinct. -/
theorem mem_filter_map_fst {p : Nat × FunctionMetadata → Bool}
    {reg : List (Nat × FunctionMetadata)} {fn : Nat} {m : FunctionMetadata}
    (hnd : (reg.map Prod.fst).Nodup) (hmem : (fn, m) ∈ reg) :
    fn ∈ (reg.filter p).map Prod.fst ↔ p (fn, m) = true := by
  constructor
  · intro h
    obtain ⟨⟨fn', m'⟩, he, hfst⟩ := List.mem_map.1 h
    obtain ⟨hmem', hp⟩ := List.mem_filter.1 he
    cases hfst
    exact registry_key_unique reg hnd hmem' hmem ▸ hp
  · intro hp
    exact List.mem_map.2 ⟨(fn, m), List.mem_filter.2 ⟨hmem, hp⟩, rfl⟩

/-- Whether some element of the first `1` records satisfies a property
is the same as whether the head record exists and satisfies it. -/
theorem exists_mem_take_one {α : Type} (l : List α) (P : α → Prop) :
    (∃ x ∈ l.take 1, P x) ↔ ∃ x, l.head? = some x ∧ P x := by
  cases l <;> simp

/-- The cross-product predicate of the Luminance/parameters/type filter
with `any_parameter` false matches exactly when the record at position
0 has type `Luminance`. -/
theorem luminance_pred_false (m : FunctionMetadata) :
    ((["parameters"] : List String).any fun c =>
      (["type"] : List String).any fun a =>
        functionMatches m "Luminance" c a false) = true ↔
      ∃ p, m.parameters.head? = some p ∧ p.type = "Luminance" := by
  simp [functionMatches, recordsMatch, parameterAttribute,
    attributeEqualsString, exists_mem_take_one]

/-- The cross-product predicate of the Luminance/parameters/type filter
with `any_parameter` true matches exactly when some record has type
`Luminance`. -/
theorem luminance_pred_true (m : FunctionMetadata) :
    ((["parameters"] : List String).any fun c =>
      (["type"] : List String).any fun a =>
        functionMatches m "Luminance" c a true) = true ↔
      ∃ p ∈ m.parameters, p.type = "Luminance" := by
  simp [functionMatches, recordsMatch, parameterAttribute,
    attributeEqualsString, List.any_eq_true]

/-- C1: in any registry with distinct keys, filtering for
`filter_value='Luminance'`, `categories='parameters'`,
`attributes='type'` with `any_parameter=False` includes a function
exactly when its first stored parameter record has type `'Luminance'`;
with `any_parameter=True` exactly when some parameter record has that
type; and the former result set is contained in the latter. -/
theorem C1_filter_first_vs_any :
    ∀ (registry : List (Nat × FunctionMetadata)),
      (registry.map Prod.fst).Nodup →
      ∀ (fn : Nat) (m : FunctionMetadata), (fn, m) ∈ registry →
      ∃ l₀ l₁,
        filter_metadata_registry "Luminance" ["parameters"] ["type"] false
          registry = Except.ok l₀ ∧
        filter_metadata_registry "Luminance" ["parameters"] ["type"] true
          registry = Except.ok l₁ ∧
        (fn ∈ l₀ ↔ ∃ p, m.parameters.head? = some p ∧ p.type = "Luminance") ∧
        (fn ∈ l₁ ↔ ∃ p ∈ m.parameters, p.type = "Luminance") ∧
        l₀ ⊆ l₁ := by
  intro reg hnd fn m hmem
  have hc1 : ¬ ∃ c ∈ (["parameters"] : List String), c ∉ VALID_CATEGORIES := by
    decide
  have hc2 : ¬ ∃ c ∈ (["parameters"] : List String),
      ∃ a ∈ (["type"] : List String), a ∉ validAttributes c := by decide
  refine ⟨(reg.filter fun e =>
      (["parameters"] : List String).any fun c =>
        (["type"] : List String).any fun a =>
          functionMatches e.2 "Luminance" c a false).map Prod.fst,
    (reg.filter fun e =>
      (["parameters"] : List String).any fun c =>
        (["type"] : List String).any fun a =>
          functionMatches e.2 "Luminance" c a true).map Prod.fst,
    ?_, ?_, ?_, ?_, ?_⟩
  · unfold filter_metadata_registry
    rw [if_neg hc1, if_neg hc2]
  · unfold filter_metadata_registry
    rw [if_neg hc1, if_neg hc2]
  · rw [mem_filter_map_fst hnd hmem]
    exact luminance_pred_false m
  · rw [mem_filter_map_fst hnd hmem]
    exact luminance_pred_true m
  · intro g hg
    obtain ⟨⟨g', m'⟩, he, hfst⟩ := List.mem_map.1 hg
    obtain ⟨hmem', hp⟩ := List.mem_filter.1 he
    refine List.mem_map.2 ⟨(g', m'), List.mem_filter.2 ⟨hmem', ?_⟩, hfst⟩
    obtain ⟨p, hhead, htype⟩ := (luminance_pred_false m').1 hp
    exact (luminance_pred_true m').2
      ⟨p, List.mem_of_mem_head? hhead, htype⟩

/-- Closed witness for C1: the one-entry registry instantiation. -/
theorem C1_filter_witness :
    ∃ l₀ l₁,
      filter_metadata_registry "Luminance" ["parameters"] ["type"] false
        luminanceRegistry = Except.ok l₀ ∧
      filter_metadata_registry "Luminance" ["parameters"] ["type"] true
        luminanceRegistry = Except.ok l₁ ∧
      ((0 : Nat) ∈ l₀ ↔ ∃ p,
        (⟨[⟨"Luminance", "Y", Lit.num 100⟩], [], []⟩ :
          FunctionMetadata).parameters.head? = some p ∧ p.type = "Luminance") ∧
      ((0 : Nat) ∈ l₁ ↔ ∃ p ∈ (⟨[⟨"Luminance", "Y", Lit.num 100⟩], [], []⟩ :
          FunctionMetadata).parameters, p.type = "Luminance") ∧
      l₀ ⊆ l₁ :=
  C1_filter_first_vs_any luminanceRegistry (by simp [luminanceRegistry])
    0 ⟨[⟨"Luminance", "Y", Lit.num 100⟩], [], []⟩ (List.Mem.head _)


/-- C8: each named convenience wrapper equals the generic Luo (2006)
transform applied with the fixed coefficient triple the table stores
for its name; the coefficient table has exactly the three entries
CAM02-LCD, CAM02-SCD and CAM02-UCS; and lookup by string key is
case-insensitive (two keys equal up to case give the same result). -/
theorem C8_wrappers_and_table :
    (∀ JMh : ℝ × ℝ × ℝ, JMh_CIECAM02_to_CAM02LCD JMh =
      JMh_CIECAM02_to_UCS_Luo2006 JMh ⟨0.77, 0.007, 0.0053⟩) ∧
    (∀ Jpapbp : ℝ × ℝ × ℝ, CAM02LCD_to_JMh_CIECAM02 Jpapbp =
      UCS_Luo2006_to_JMh_CIECAM02 Jpapbp ⟨0.77, 0.007, 0.0053⟩) ∧
    (∀ JMh : ℝ × ℝ × ℝ, JMh_CIECAM02_to_CAM02SCD JMh =
      JMh_CIECAM02_to_UCS_Luo2006 JMh ⟨1.24, 0.007, 0.0363⟩) ∧
    (∀ Jpapbp : ℝ × ℝ × ℝ, CAM02SCD_to_JMh_CIECAM02 Jpapbp =
      UCS_Luo2006_to_JMh_CIECAM02 Jpapbp ⟨1.24, 0.007, 0.0363⟩) ∧
    (∀ JMh : ℝ × ℝ × ℝ, JMh_CIECAM02_to_CAM02UCS JMh =
      JMh_CIECAM02_to_UCS_Luo2006 JMh ⟨1.00, 0.007, 0.0228⟩) ∧
    (∀ Jpapbp : ℝ × ℝ × ℝ, CAM02UCS_to_JMh_CIECAM02 Jpapbp =
      UCS_Luo2006_to_JMh_CIECAM02 Jpapbp ⟨1.00, 0.007, 0.0228⟩) ∧
    COEFFICIENTS_UCS_LUO2006 "CAM02-LCD" = some ⟨0.77, 0.007, 0.0053⟩ ∧
    COEFFICIENTS_UCS_LUO2006 "CAM02-SCD" = some ⟨1.24, 0.007, 0.0363⟩ ∧
    COEFFICIENTS_UCS_LUO2006 "CAM02-UCS" = some ⟨1.00, 0.007, 0.0228⟩ ∧
    COEFFICIENTS_UCS_LUO2006_data.map Prod.fst =
      ["cam02-lcd", "cam02-scd", "cam02-ucs"] ∧
    (∀ s t : String, toLowerString s = toLowerString t →
      COEFFICIENTS_UCS_LUO2006 s = COEFFICIENTS_UCS_LUO2006 t) := by
  refine ⟨fun _ => rfl, fun _ => rfl, fun _ => rfl, fun _ => rfl, fun _ => rfl,
    fun _ => rfl, rfl, rfl, rfl, rfl, fun s t h => ?_⟩
  unfold COEFFICIENTS_UCS_LUO2006
  rw [h]

/-- Closed witness for C8: two spellings of the CAM02-UCS key equal up
to case yield the same coefficients, and the LCD wrapper agrees with
the generic transform at a concrete input. -/
theorem C8_wrappers_witness :
    toLowerString "CAM02-uCs" = toLowerString "cam02-UCS" ∧
      COEFFICIENTS_UCS_LUO2006 "CAM02-uCs" = COEFFICIENTS_UCS_LUO2006 "cam02-UCS" ∧
      JMh_CIECAM02_to_CAM02LCD (1, 1, 1) =
        JMh_CIECAM02_to_UCS_Luo2006 (1, 1, 1) ⟨0.77, 0.007, 0.0053⟩ :=
  ⟨by decide,
   C8_wrappers_and_table.2.2.2.2.2.2.2.2.2.2 "CAM02-uCs" "cam02-UCS" (by decide),
   C8_wrappers_and_table.1 (1, 1, 1)⟩

/-- The floor-based modulo by 360 is never negative. -/
theorem fmod_360_nonneg (x : ℝ) : 0 ≤ fmod x 360 := by
  have h1 : (⌊x / 360⌋ : ℝ) ≤ x / 360 := Int.floor_le _
  rw [le_div_iff₀ (by norm_num : (0 : ℝ) < 360)] at h1
  unfold fmod
  linarith

/-- The floor-based modulo by 360 stays below 360. -/
theorem fmod_360_lt (x : ℝ) : fmod x 360 < 360 := by
  have h2 : x / 360 < ⌊x / 360⌋ + 1 := Int.lt_floor_add_one _
  rw [div_lt_iff₀ (by norm_num : (0 : ℝ) < 360)] at h2
  unfold fmod
  linarith

/-- C5: the hue component — the third component of `Lab_to_LCHab`, of
`Luv_to_LCHuv` and of `UCS_Luo2006_to_JMh_CIECAM02` — lies in
[0, 360) for every input array. -/
theorem C5_hue_in_range :
    (∀ Lab : ℝ × ℝ × ℝ,
      0 ≤ (Lab_to_LCHab Lab).2.2 ∧ (Lab_to_LCHab Lab).2.2 < 360) ∧
    (∀ Luv : ℝ × ℝ × ℝ,
      0 ≤ (Luv_to_LCHuv Luv).2.2 ∧ (Luv_to_LCHuv Luv).2.2 < 360) ∧
    (∀ (Jpapbp : ℝ × ℝ × ℝ) (coefficients : Coefficients_UCS_Luo2006),
      0 ≤ (UCS_Luo2006_to_JMh_CIECAM02 Jpapbp coefficients).2.2 ∧
        (UCS_Luo2006_to_JMh_CIECAM02 Jpapbp coefficients).2.2 < 360) := by
  refine ⟨fun Lab => ?_, fun Luv => ?_, fun Jpapbp coefficients => ?_⟩ <;>
    exact ⟨fmod_360_nonneg _, fmod_360_lt _⟩

/-- C9: neither direction of the Luo (2006) transform depends on the
`K_L` coefficient — two coefficient records agreeing on `c_1` and
`c_2` produce identical outputs. -/
theorem C9_KL_independence :
    ∀ (JMh : ℝ × ℝ × ℝ) (K K' c1 c2 : ℝ),
      JMh_CIECAM02_to_UCS_Luo2006 JMh ⟨K, c1, c2⟩ =
        JMh_CIECAM02_to_UCS_Luo2006 JMh ⟨K', c1, c2⟩ ∧
      UCS_Luo2006_to_JMh_CIECAM02 JMh ⟨K, c1, c2⟩ =
        UCS_Luo2006_to_JMh_CIECAM02 JMh ⟨K', c1, c2⟩ :=
  fun _ _ _ _ _ => ⟨rfl, rfl⟩

/-- C10: the lightness channel passes through the polar conversions
unchanged — the first component of the output of each of
`Lab_to_LCHab`, `LCHab_to_Lab`, `Luv_to_LCHuv` and `LCHuv_to_Luv`
equals the first component of its input. -/
theorem C10_lightness_passthrough :
    (∀ Lab : ℝ × ℝ × ℝ, (Lab_to_LCHab Lab).1 = Lab.1) ∧
    (∀ LCHab : ℝ × ℝ × ℝ, (LCHab_to_Lab LCHab).1 = LCHab.1) ∧
    (∀ Luv : ℝ × ℝ × ℝ, (Luv_to_LCHuv Luv).1 = Luv.1) ∧
    (∀ LCHuv : ℝ × ℝ × ℝ, (LCHuv_to_Luv LCHuv).1 = LCHuv.1) :=
  ⟨fun _ => rfl, fun _ => rfl, fun _ => rfl, fun _ => rfl⟩

/-- The threshold constant is positive. -/
theorem cie_e_pos : (0 : ℝ) < CIE_E := by norm_num [CIE_E]

/-- Cubing undoes the real cube root on nonnegative reals. -/
theorem lab_f_cube (t : ℝ) (ht : 0 ≤ t) : (t ^ ((1 : ℝ) / 3)) ^ (3 : ℕ) = t := by
  rw [← Real.rpow_natCast (t ^ ((1 : ℝ) / 3)) 3, ← Real.rpow_mul ht]
  norm_num

/-- The cube root of the threshold constant is 6/29. -/
theorem e_cbrt : CIE_E ^ ((1 : ℝ) / 3) = 6 / 29 := by
  rw [show CIE_E = ((6 : ℝ) / 29) ^ (3 : ℕ) by norm_num [CIE_E]]
  rw [← Real.rpow_natCast ((6 : ℝ) / 29) 3, ← Real.rpow_mul (by norm_num)]
  norm_num

/-- Above the threshold the cube root exceeds 6/29. -/
theorem lab_f_gt (t : ℝ) (h : t > CIE_E) : t ^ ((1 : ℝ) / 3) > 6 / 29 := by
  rw [← e_cbrt]
  exact Real.rpow_lt_rpow cie_e_pos.le h (by norm_num)

/-- Below the threshold the cube of the linear ramp stays below the
threshold, so the inverse transform selects the linear branch. -/
theorem lab_f_le (t : ℝ) (ht : 0 < t) (h : ¬ t > CIE_E) :
    ((CIE_K * t + 16) / 116) ^ (3 : ℕ) ≤ CIE_E := by
  have h8 : CIE_K * t ≤ 8 := by
    unfold CIE_K CIE_E at *
    push_neg at h
    nlinarith
  have hf : (CIE_K * t + 16) / 116 ≤ 6 / 29 := by linarith
  have hf0 : 0 ≤ (CIE_K * t + 16) / 116 := by
    have hKt : 0 < CIE_K * t := mul_pos (by norm_num [CIE_K]) ht
    linarith
  calc ((CIE_K * t + 16) / 116) ^ (3 : ℕ) ≤ ((6 : ℝ) / 29) ^ (3 : ℕ) :=
        pow_le_pow_left₀ hf0 hf 3
    _ = CIE_E := by norm_num [CIE_E]

/-- The x/z-channel inverse of `Lab_to_XYZ` undoes `lab_f` on positive
inputs. -/
theorem lab_f_inv (t : ℝ) (ht : 0 < t) :
    (if lab_f t ^ 3 > CIE_E then lab_f t ^ 3
     else (116 * lab_f t - 16) / CIE_K) = t := by
  unfold lab_f
  by_cases h : t > CIE_E
  · rw [if_pos h, lab_f_cube t ht.le, if_pos h]
  · rw [if_neg h, if_neg (not_lt.2 (lab_f_le t ht h))]
    have hK : CIE_K ≠ 0 := by norm_num [CIE_K]
    field_simp

/-- The y-channel inverse of `Lab_to_XYZ`, gated on
`L > CIE_K * CIE_E`, undoes the lightness computation of `XYZ_to_Lab`
on positive inputs. -/
theorem lab_L_inv (t : ℝ) (ht : 0 < t) :
    (if 116 * lab_f t - 16 > CIE_K * CIE_E then
      ((116 * lab_f t - 16 + 16) / 116) ^ 3
     else (116 * lab_f t - 16) / CIE_K) = t := by
  have hKE : CIE_K * CIE_E = 8 := by norm_num [CIE_K, CIE_E]
  unfold lab_f
  by_cases h : t > CIE_E
  · rw [if_pos h, if_pos (by nlinarith [lab_f_gt t h])]
    have e : (116 * t ^ ((1 : ℝ) / 3) - 16 + 16) / 116 = t ^ ((1 : ℝ) / 3) := by
      ring
    rw [e, lab_f_cube t ht.le]
  · rw [if_neg h]
    have hL : 116 * ((CIE_K * t + 16) / 116) - 16 = CIE_K * t := by ring
    rw [hL]
    have h8 : CIE_K * t ≤ 8 := by
      unfold CIE_K CIE_E at *
      push_neg at h
      nlinarith
    rw [if_neg (by rw [hKE]; exact not_lt.2 h8)]
    have hK : CIE_K ≠ 0 := by norm_num [CIE_K]
    field_simp

/-- Converting the reduced hue back to radians shifts the angle by a
whole number of turns. -/
theorem radians_fmod_degrees (θ : ℝ) :
    radians (fmod (degrees θ) 360) =
      θ - (⌊degrees θ / 360⌋ : ℝ) * (2 * Real.pi) := by
  unfold radians fmod degrees
  field_simp
  ring

/-- The cosine is unchanged by the degree-modulo-360 round trip. -/
theorem cos_radians_fmod_degrees (θ : ℝ) :
    Real.cos (radians (fmod (degrees θ) 360)) = Real.cos θ := by
  rw [radians_fmod_degrees]
  have e : θ - (⌊degrees θ / 360⌋ : ℝ) * (2 * Real.pi) =
      θ + ((-⌊degrees θ / 360⌋ : ℤ) : ℝ) * (2 * Real.pi) := by
    push_cast
    ring
  rw [e, Real.cos_add_int_mul_two_pi]

/-- The sine is unchanged by the degree-modulo-360 round trip. -/
theorem sin_radians_fmod_degrees (θ : ℝ) :
    Real.sin (radians (fmod (degrees θ) 360)) = Real.sin θ := by
  rw [radians_fmod_degrees]
  have e : θ - (⌊degrees θ / 360⌋ : ℝ) * (2 * Real.pi) =
      θ + ((-⌊degrees θ / 360⌋ : ℤ) : ℝ) * (2 * Real.pi) := by
    push_cast
    ring
  rw [e, Real.sin_add_int_mul_two_pi]

/-- Radius times the cosine of the argument recovers the first
cartesian coordinate. -/
theorem abs_cos_arg_self (a b : ℝ) :
    (Complex.abs ⟨a, b⟩) * Real.cos (Complex.arg ⟨a, b⟩) = a :=
  Complex.abs_mul_cos_arg ⟨a, b⟩

/-- Radius times the sine of the argument recovers the second
cartesian coordinate. -/
theorem abs_sin_arg_self (a b : ℝ) :
    (Complex.abs ⟨a, b⟩) * Real.sin (Complex.arg ⟨a, b⟩) = b :=
  Complex.abs_mul_sin_arg ⟨a, b⟩

/-- The modulo-360 reduction fixes values already in [0, 360). -/
theorem fmod_eq_self {x : ℝ} (h0 : 0 ≤ x) (h1 : x < 360) : fmod x 360 = x := by
  unfold fmod
  have hfl : ⌊x / 360⌋ = 0 := by
    rw [Int.floor_eq_zero_iff]
    constructor
    · positivity
    · rw [div_lt_one (by norm_num : (0 : ℝ) < 360)]
      exact h1
  rw [hfl]
  norm_num

/-- The modulo-360 reduction adds one turn to values in [-360, 0). -/
theorem fmod_neg_eq {x : ℝ} (h0 : -360 ≤ x) (h1 : x < 0) :
    fmod x 360 = x + 360 := by
  unfold fmod
  have hfl : ⌊x / 360⌋ = -1 := by
    rw [Int.floor_eq_iff]
    constructor
    · push_cast
      rw [le_div_iff₀ (by norm_num : (0 : ℝ) < 360)]
      linarith
    · push_cast
      have hneg : x / 360 < 0 := div_neg_of_neg_of_pos h1 (by norm_num)
      linarith
  rw [hfl]
  push_cast
  ring

/-- Cartesian to polar and back, through the degree-normalised hue, is
the identity on every pair. -/
theorem lch_polar_roundtrip (a b : ℝ) :
    polar_to_cartesian ((cartesian_to_polar (a, b)).1,
      radians (fmod (degrees ((cartesian_to_polar (a, b)).2)) 360)) = (a, b) := by
  unfold polar_to_cartesian cartesian_to_polar
  simp only
  rw [cos_radians_fmod_degrees, sin_radians_fmod_degrees]
  exact Prod.ext (abs_cos_arg_self a b) (abs_sin_arg_self a b)

/-- The complex number with polar coordinates (r, θ) in its real and
imaginary parts equals the standard polar form. -/
theorem polar_mk_eq (r θ : ℝ) :
    (⟨r * Real.cos θ, r * Real.sin θ⟩ : ℂ) =
      (r : ℂ) * (Complex.cos θ + Complex.sin θ * Complex.I) := by
  apply Complex.ext <;>
    simp [Complex.mul_re, Complex.mul_im, Complex.cos_ofReal_re,
      Complex.sin_ofReal_re, Complex.cos_ofReal_im, Complex.sin_ofReal_im]

/-- The radius of a polar-form pair is the nonnegative radius. -/
theorem abs_polar (r θ : ℝ) (hr : 0 ≤ r) :
    Complex.abs ⟨r * Real.cos θ, r * Real.sin θ⟩ = r := by
  rw [polar_mk_eq, map_mul, Complex.abs_ofReal, Complex.abs_cos_add_sin_mul_I,
    abs_of_nonneg hr, mul_one]

/-- The argument of a polar-form pair with positive radius and angle in
(-π, π] is the angle. -/
theorem arg_polar (r θ : ℝ) (hr : 0 < r) (hθ : θ ∈ Set.Ioc (-Real.pi) Real.pi) :
    Complex.arg ⟨r * Real.cos θ, r * Real.sin θ⟩ = θ := by
  rw [polar_mk_eq]
  exact Complex.arg_mul_cos_add_sin_mul_I hr hθ

/-- A hue in [0, 360) converted to radians, through cartesian
coordinates with positive radius, back through the argument and the
degree-modulo reduction, is recovered exactly. -/
theorem hue_recover (r h : ℝ) (hr : 0 < r) (h0 : 0 ≤ h) (h360 : h < 360) :
    fmod (degrees (Complex.arg
      ⟨r * Real.cos (radians h), r * Real.sin (radians h)⟩)) 360 = h := by
  have hpi : (0 : ℝ) < Real.pi := Real.pi_pos
  have hdeg : degrees (radians h) = h := by
    unfold degrees radians
    field_simp
  by_cases hle : h ≤ 180
  · have hθ : radians h ∈ Set.Ioc (-Real.pi) Real.pi := by
      unfold radians
      constructor
      · nlinarith
      · nlinarith
    rw [arg_polar r (radians h) hr hθ, hdeg, fmod_eq_self h0 h360]
  · push_neg at hle
    have hcos : Real.cos (radians h) = Real.cos (radians h - 2 * Real.pi) := by
      rw [Real.cos_sub_two_pi]
    have hsin : Real.sin (radians h) = Real.sin (radians h - 2 * Real.pi) := by
      rw [Real.sin_sub_two_pi]
    rw [hcos, hsin]
    have hθ : radians h - 2 * Real.pi ∈ Set.Ioc (-Real.pi) Real.pi := by
      unfold radians
      constructor
      · nlinarith
      · nlinarith
    rw [arg_polar r _ hr hθ]
    have hdeg2 : degrees (radians h - 2 * Real.pi) = h - 360 := by
      unfold degrees radians
      field_simp
      ring
    rw [hdeg2, fmod_neg_eq (by linarith) (by linarith)]
    ring

/-- The Lab round trip holds exactly over the reals for positive XYZ
and a chromaticity inside the triangle. -/
theorem lab_roundtrip (x y X Y Z : ℝ) (hx : 0 < x) (hy : 0 < y)
    (hxy : x + y < 1) (hX : 0 < X) (hY : 0 < Y) (hZ : 0 < Z) :
    Lab_to_XYZ (XYZ_to_Lab (X, Y, Z) (x, y)) (x, y) = (X, Y, Z) := by
  have hXr : (0 : ℝ) < x * 1 / y := by positivity
  have hZr : (0 : ℝ) < (1 - x - y) * 1 / y := by
    have h1 : (0 : ℝ) < 1 - x - y := by linarith
    positivity
  have htX : 0 < X / (x * 1 / y) := div_pos hX hXr
  have htY : 0 < Y / 1 := by simpa using hY
  have htZ : 0 < Z / ((1 - x - y) * 1 / y) := div_pos hZ hZr
  unfold XYZ_to_Lab Lab_to_XYZ xyY_to_XYZ xy_to_xyY
  simp only
  refine Prod.ext ?_ (Prod.ext ?_ ?_)
  · simp only
    have ex : 500 * (lab_f (X / (x * 1 / y)) - lab_f (Y / 1)) / 500 +
        (116 * lab_f (Y / 1) - 16 + 16) / 116 = lab_f (X / (x * 1 / y)) := by
      ring
    rw [ex, lab_f_inv _ htX, div_mul_cancel₀ X hXr.ne']
  · simp only
    rw [mul_one, lab_L_inv _ htY, div_one]
  · simp only
    have ez : (116 * lab_f (Y / 1) - 16 + 16) / 116 -
        200 * (lab_f (Y / 1) - lab_f (Z / ((1 - x - y) * 1 / y))) / 200 =
        lab_f (Z / ((1 - x - y) * 1 / y)) := by
      ring
    rw [ez, lab_f_inv _ htZ, div_mul_cancel₀ Z hZr.ne']

/-- The lightness of `XYZ_to_Luv` is positive on positive inputs. -/
theorem luv_L_pos (t : ℝ) (ht : 0 < t) :
    0 < (if t > CIE_E then 116 * t ^ ((1 : ℝ) / 3) - 16 else CIE_K * t) := by
  by_cases h : t > CIE_E
  · rw [if_pos h]
    nlinarith [lab_f_gt t h]
  · rw [if_neg h]
    exact mul_pos (by norm_num [CIE_K]) ht

/-- The Y-recovery of `Luv_to_XYZ`, gated on `L > CIE_E * CIE_K`,
undoes the lightness computation of `XYZ_to_Luv` on positive inputs. -/
theorem luv_L_inv (t : ℝ) (ht : 0 < t) :
    (if (if t > CIE_E then 116 * t ^ ((1 : ℝ) / 3) - 16 else CIE_K * t) >
        CIE_E * CIE_K
     then (((if t > CIE_E then 116 * t ^ ((1 : ℝ) / 3) - 16 else CIE_K * t) + 16)
       / 116) ^ 3
     else (if t > CIE_E then 116 * t ^ ((1 : ℝ) / 3) - 16 else CIE_K * t) /
       CIE_K) = t := by
  have hEK : CIE_E * CIE_K = 8 := by norm_num [CIE_E, CIE_K]
  by_cases h : t > CIE_E
  · simp only [if_pos h]
    rw [if_pos (by nlinarith [lab_f_gt t h])]
    have e : (116 * t ^ ((1 : ℝ) / 3) - 16 + 16) / 116 = t ^ ((1 : ℝ) / 3) := by
      ring
    rw [e, lab_f_cube t ht.le]
  · simp only [if_neg h]
    have h8 : CIE_K * t ≤ 8 := by
      unfold CIE_K CIE_E at *
      push_neg at h
      nlinarith
    rw [if_neg (by rw [hEK]; exact not_lt.2 h8)]
    have hK : CIE_K ≠ 0 := by norm_num [CIE_K]
    field_simp

/-- The Luv round trip holds exactly over the reals for positive XYZ
and a chromaticity inside the triangle. -/
theorem luv_roundtrip (x y X Y Z : ℝ) (hx : 0 < x) (hy : 0 < y)
    (hxy : x + y < 1) (hX : 0 < X) (hY : 0 < Y) (hZ : 0 < Z) :
    Luv_to_XYZ (XYZ_to_Luv (X, Y, Z) (x, y)) (x, y) = (X, Y, Z) := by
  have h1 : (0 : ℝ) < 1 - x - y := by linarith
  have hXr : (0 : ℝ) < x / y := by positivity
  have hZr : (0 : ℝ) < (1 - x - y) / y := by positivity
  have hD : (0 : ℝ) < X + 15 * Y + 3 * Z := by linarith
  have hDr : (0 : ℝ) < x / y + 15 + 3 * ((1 - x - y) / y) := by
    have h3 : (0 : ℝ) < 3 * ((1 - x - y) / y) := by positivity
    linarith
  have hLpos := luv_L_pos Y hY
  unfold XYZ_to_Luv Luv_to_XYZ xyY_to_XYZ xy_to_xyY
  simp only [mul_one, div_one]
  rw [luv_L_inv Y hY]
  generalize hg : (if Y > CIE_E then 116 * Y ^ ((1 : ℝ) / 3) - 16
    else CIE_K * Y) = l at hLpos ⊢
  have e1 : 13 * l * (4 * X / (X + 15 * Y + 3 * Z) -
        4 * (x / y) / (x / y + 15 + 3 * ((1 - x - y) / y))) +
      13 * l * (4 * (x / y) / (x / y + 15 + 3 * ((1 - x - y) / y))) =
      52 * l * X / (X + 15 * Y + 3 * Z) := by
    ring
  have e2 : 13 * l * (9 * Y / (X + 15 * Y + 3 * Z) -
        9 / (x / y + 15 + 3 * ((1 - x - y) / y))) +
      13 * l * (9 / (x / y + 15 + 3 * ((1 - x - y) / y))) =
      117 * l * Y / (X + 15 * Y + 3 * Z) := by
    ring
  rw [e1, e2]
  have s1 : 39 * l / (117 * l * Y / (X + 15 * Y + 3 * Z)) =
      (X + 15 * Y + 3 * Z) / (3 * Y) := by
    rw [div_div_eq_mul_div, div_eq_div_iff (by positivity) (by positivity)]
    ring
  have s2 : 52 * l / (52 * l * X / (X + 15 * Y + 3 * Z)) =
      (X + 15 * Y + 3 * Z) / X := by
    rw [div_div_eq_mul_div, div_eq_div_iff (by positivity) hX.ne']
    ring
  rw [s1, s2]
  have hden : 1 / 3 * ((X + 15 * Y + 3 * Z) / X - 1) - -(1 / 3) =
      (X + 15 * Y + 3 * Z) / (3 * X) := by
    field_simp
    ring
  have hnum : Y * ((X + 15 * Y + 3 * Z) / (3 * Y) - 5) - -5 * Y =
      (X + 15 * Y + 3 * Z) / 3 := by
    field_simp
    ring
  rw [hden, hnum]
  have hXout : (X + 15 * Y + 3 * Z) / 3 / ((X + 15 * Y + 3 * Z) / (3 * X)) =
      X := by
    rw [div_div_div_eq, div_eq_iff (by positivity)]
    ring
  rw [hXout]
  refine Prod.ext rfl (Prod.ext rfl ?_)
  simp only
  field_simp
  ring

/-- The LCH(ab) round trip is the identity on every Lab array. -/
theorem lchab_roundtrip (Lab : ℝ × ℝ × ℝ) :
    LCHab_to_Lab (Lab_to_LCHab Lab) = Lab := by
  unfold Lab_to_LCHab LCHab_to_Lab
  simp only
  rw [lch_polar_roundtrip Lab.2.1 Lab.2.2]

/-- The LCH(uv) round trip is the identity on every Luv array. -/
theorem lchuv_roundtrip (Luv : ℝ × ℝ × ℝ) :
    LCHuv_to_Luv (Luv_to_LCHuv Luv) = Luv := by
  unfold Luv_to_LCHuv LCHuv_to_Luv
  simp only
  rw [lch_polar_roundtrip Luv.2.1 Luv.2.2]

/-- C2: for every XYZ array with components in (0, 1) and every
supported illuminant chromaticity (positive coordinates inside the
spectral triangle), `Lab_to_XYZ` after `XYZ_to_Lab` recovers XYZ
exactly in the real model (hence within the 1e-7 tolerance), and the
same holds for the Luv pair; the two LCH round trips are the identity
on every input. -/
theorem C2_roundtrips :
    (∀ x y X Y Z : ℝ, 0 < x → 0 < y → x + y < 1 →
      0 < X → X < 1 → 0 < Y → Y < 1 → 0 < Z → Z < 1 →
      Lab_to_XYZ (XYZ_to_Lab (X, Y, Z) (x, y)) (x, y) = (X, Y, Z)) ∧
    (∀ x y X Y Z : ℝ, 0 < x → 0 < y → x + y < 1 →
      0 < X → X < 1 → 0 < Y → Y < 1 → 0 < Z → Z < 1 →
      Luv_to_XYZ (XYZ_to_Luv (X, Y, Z) (x, y)) (x, y) = (X, Y, Z)) ∧
    (∀ Lab : ℝ × ℝ × ℝ, LCHab_to_Lab (Lab_to_LCHab Lab) = Lab) ∧
    (∀ Luv : ℝ × ℝ × ℝ, LCHuv_to_Luv (Luv_to_LCHuv Luv) = Luv) :=
  ⟨fun x y X Y Z hx hy hxy hX _ hY _ hZ _ =>
      lab_roundtrip x y X Y Z hx hy hxy hX hY hZ,
   fun x y X Y Z hx hy hxy hX _ hY _ hZ _ =>
      luv_roundtrip x y X Y Z hx hy hxy hX hY hZ,
   lchab_roundtrip, lchuv_roundtrip⟩

/-- Closed witness for C2: the round trips instantiated at the XYZ
array (1/2, 1/2, 1/2) under the equal-energy chromaticity (1/3, 1/3),
and the LCH round trips at (5, -3, 4). -/
theorem C2_roundtrips_witness :
    (0 : ℝ) < 1 / 3 ∧ (1 / 3 : ℝ) + 1 / 3 < 1 ∧
      (0 : ℝ) < 1 / 2 ∧ (1 / 2 : ℝ) < 1 ∧
      Lab_to_XYZ (XYZ_to_Lab (1 / 2, 1 / 2, 1 / 2) (1 / 3, 1 / 3))
        (1 / 3, 1 / 3) = (1 / 2, 1 / 2, 1 / 2) ∧
      Luv_to_XYZ (XYZ_to_Luv (1 / 2, 1 / 2, 1 / 2) (1 / 3, 1 / 3))
        (1 / 3, 1 / 3) = (1 / 2, 1 / 2, 1 / 2) ∧
      LCHab_to_Lab (Lab_to_LCHab (5, -3, 4)) = (5, -3, 4) ∧
      LCHuv_to_Luv (Luv_to_LCHuv (5, -3, 4)) = (5, -3, 4) :=
  ⟨by norm_num, by norm_num, by norm_num, by norm_num,
   C2_roundtrips.1 (1 / 3) (1 / 3) (1 / 2) (1 / 2) (1 / 2) (by norm_num)
     (by norm_num) (by norm_num) (by norm_num) (by norm_num) (by norm_num)
     (by norm_num) (by norm_num) (by norm_num),
   C2_roundtrips.2.1 (1 / 3) (1 / 3) (1 / 2) (1 / 2) (1 / 2) (by norm_num)
     (by norm_num) (by norm_num) (by norm_num) (by norm_num) (by norm_num)
     (by norm_num) (by norm_num) (by norm_num),
   C2_roundtrips.2.2.1 (5, -3, 4),
   C2_roundtrips.2.2.2 (5, -3, 4)⟩

/-- The Luo (2006) round trip for arbitrary positive coefficients. -/
theorem luo_roundtrip_general (J M h K c1 c2 : ℝ) (hc1 : 0 < c1)
    (hc2 : 0 < c2) (hJ : 0 < J) (hM : 0 < M) (h0 : 0 ≤ h) (h360 : h < 360) :
    UCS_Luo2006_to_JMh_CIECAM02
      (JMh_CIECAM02_to_UCS_Luo2006 (J, M, h) ⟨K, c1, c2⟩) ⟨K, c1, c2⟩ =
      (J, M, h) := by
  have hMp : 0 < (1 / c2) * Real.log (1 + c2 * M) := by
    have hcM : (0 : ℝ) < c2 * M := mul_pos hc2 hM
    have hlog : 0 < Real.log (1 + c2 * M) := Real.log_pos (by linarith)
    positivity
  have hden : (1 + c1 * J) ≠ 0 := by positivity
  have h100 : (0 : ℝ) < 1 + 100 * c1 := by positivity
  unfold JMh_CIECAM02_to_UCS_Luo2006 UCS_Luo2006_to_JMh_CIECAM02
    polar_to_cartesian cartesian_to_polar
  simp only
  refine Prod.ext ?_ (Prod.ext ?_ ?_)
  · simp only
    have e1 : c1 * ((1 + 100 * c1) * J / (1 + c1 * J)) - 1 - 100 * c1 =
        -((1 + 100 * c1) / (1 + c1 * J)) := by
      field_simp
      ring
    rw [e1, neg_div_neg_eq, div_div_div_eq]
    field_simp
    ring
  · simp only
    rw [abs_polar _ _ hMp.le]
    have e2 : (1 / c2) * Real.log (1 + c2 * M) / (1 / c2) =
        Real.log (1 + c2 * M) := by
      field_simp
    rw [e2, Real.exp_log (by nlinarith : (0 : ℝ) < 1 + c2 * M)]
    field_simp
  · simp only
    exact hue_recover _ h hMp h0 h360

/-- C6: for every JMh with J and M in (0, 100) and h in [0, 360), and
each of the three Luo (2006) coefficient triples, the inverse transform
recovers JMh exactly in the real model — J by the algebraic inversion
of J-prime and M via (exp(M-prime · c2) − 1)/c2. -/
theorem C6_luo_roundtrip :
    ∀ (J M h : ℝ) (coefficients : Coefficients_UCS_Luo2006),
      (coefficients = ⟨0.77, 0.007, 0.0053⟩ ∨
        coefficients = ⟨1.24, 0.007, 0.0363⟩ ∨
        coefficients = ⟨1.00, 0.007, 0.0228⟩) →
      0 < J → J < 100 → 0 < M → M < 100 → 0 ≤ h → h < 360 →
      UCS_Luo2006_to_JMh_CIECAM02
        (JMh_CIECAM02_to_UCS_Luo2006 (J, M, h) coefficients) coefficients =
        (J, M, h) := by
  intro J M h co hco hJ _ hM _ h0 h360
  obtain hc | hc | hc := hco <;> subst hc <;>
    exact luo_roundtrip_general J M h _ _ _ (by norm_num) (by norm_num)
      hJ hM h0 h360

/-- Closed witness for C6: the CAM02-LCD round trip at
JMh = (50, 20, 90). -/
theorem C6_luo_roundtrip_witness :
    ((⟨0.77, 0.007, 0.0053⟩ : Coefficients_UCS_Luo2006) = ⟨0.77, 0.007, 0.0053⟩ ∨
      (⟨0.77, 0.007, 0.0053⟩ : Coefficients_UCS_Luo2006) = ⟨1.24, 0.007, 0.0363⟩ ∨
      (⟨0.77, 0.007, 0.0053⟩ : Coefficients_UCS_Luo2006) = ⟨1.00, 0.007, 0.0228⟩) ∧
      (0 : ℝ) < 50 ∧ (50 : ℝ) < 100 ∧ (0 : ℝ) < 20 ∧ (20 : ℝ) < 100 ∧
      (0 : ℝ) ≤ 90 ∧ (90 : ℝ) < 360 ∧
      UCS_Luo2006_to_JMh_CIECAM02
        (JMh_CIECAM02_to_UCS_Luo2006 (50, 20, 90) ⟨0.77, 0.007, 0.0053⟩)
        ⟨0.77, 0.007, 0.0053⟩ = (50, 20, 90) :=
  ⟨Or.inl rfl, by norm_num, by norm_num, by norm_num, by norm_num,
   by norm_num, by norm_num,
   C6_luo_roundtrip 50 20 90 ⟨0.77, 0.007, 0.0053⟩ (Or.inl rfl) (by norm_num)
     (by norm_num) (by norm_num) (by norm_num) (by norm_num) (by norm_num)⟩

end ColourSpec
